import Mathlib

/-!
Verification development for the hex-grid geometry and the Hive game logic
of the socha-legacy-sdk-rust repository (plugin-2020 crate).

The Rust sources src/plugin-2020/src/util.rs and src/plugin-2020/src/game.rs
are shallowly embedded below.  Machine integers (i32) are modelled as Int:
all coordinates handled by the game live within a board of radius 6, far from
any overflow.  Rust truncating division on i32 is modelled by Int.tdiv.
HashMap-based fields are modelled as association lists; lookup takes the
first matching key, which coincides with map semantics on duplicate-free
lists, and iteration order in list order stands in for the unspecified
HashMap iteration order (all properties proved below are order-independent
or evaluate a concrete board).  The breadth-first search of
connected_by_boundary_path is embedded by well-founded recursion, mirroring
the termination of the source loop; the remaining loops (the three-step
spider search, the swarm depth-first search and the line-iterator
collection) are embedded with ample explicit fuel, and no theorem below
depends on the fuel value.
-/

namespace Socha2020

/-- Axial coordinates on the hex grid (util.rs, AxialCoords). -/
structure AxialCoords where
  x : Int
  y : Int
deriving DecidableEq

/-- Cube coordinates on the hex grid (util.rs, CubeCoords). -/
structure CubeCoords where
  x : Int
  y : Int
  z : Int
deriving DecidableEq

/-- Doubled offset coordinates on the hex grid (util.rs, DoubledCoords). -/
structure DoubledCoords where
  x : Int
  y : Int
deriving DecidableEq

/-- Addition of axial coordinates (util.rs, impl Add for AxialCoords). -/
def AxialCoords.add (a b : AxialCoords) : AxialCoords :=
  { x := a.x + b.x, y := a.y + b.y }

/-- Addition of cube coordinates (util.rs line 253, impl Add for CubeCoords).
The source computes the z component as self.y + rhs.z; this is embedded
verbatim. -/
def CubeCoords.add (a b : CubeCoords) : CubeCoords :=
  { x := a.x + b.x, y := a.y + b.y, z := a.y + b.z }

/-- Subtraction of cube coordinates (util.rs, impl Sub for CubeCoords). -/
def CubeCoords.sub (a b : CubeCoords) : CubeCoords :=
  { x := a.x - b.x, y := a.y - b.y, z := a.z - b.z }

/-- Compound addition of cube coordinates (util.rs, impl AddAssign for
CubeCoords); unlike CubeCoords.add, this one updates z from self.z. -/
def CubeCoords.addAssign (a b : CubeCoords) : CubeCoords :=
  { x := a.x + b.x, y := a.y + b.y, z := a.z + b.z }

/-- Conversion from cube to axial coordinates (util.rs, From CubeCoords for
AxialCoords). -/
def cubeToAxial (c : CubeCoords) : AxialCoords :=
  { x := c.x, y := c.y }

/-- Conversion from axial to cube coordinates (util.rs, From AxialCoords for
CubeCoords). -/
def axialToCube (c : AxialCoords) : CubeCoords :=
  { x := c.x, y := c.y, z := -(c.x + c.y) }

/-- Conversion from axial to doubled coordinates (util.rs, From AxialCoords
for DoubledCoords). -/
def axialToDoubled (c : AxialCoords) : DoubledCoords :=
  { x := c.x - c.y, y := -(c.x + c.y) }

/-- Conversion from doubled to axial coordinates (util.rs, From DoubledCoords
for AxialCoords); Rust division on i32 truncates toward zero, hence Int.tdiv. -/
def doubledToAxial (c : DoubledCoords) : AxialCoords :=
  { x := Int.tdiv (c.x - c.y) 2, y := Int.tdiv (-(c.x + c.y)) 2 }

/-- The six neighbor coordinates of an axial coordinate, in source order
(util.rs lines 96-105, AxialCoords::coord_neighbors). -/
def AxialCoords.coordNeighbors (c : AxialCoords) : List AxialCoords :=
  [ c.add { x := 0, y := 1 },
    c.add { x := 1, y := 0 },
    c.add { x := 1, y := -1 },
    c.add { x := 0, y := -1 },
    c.add { x := -1, y := 0 },
    c.add { x := -1, y := 1 } ]

/-- Adjacency test (util.rs, Adjacentable::is_adjacent_to). -/
def AxialCoords.isAdjacentTo (a b : AxialCoords) : Bool :=
  a.coordNeighbors.contains b

/-- Line test in cube coordinates (util.rs, LineFormable::forms_line_with). -/
def CubeCoords.formsLineWith (a b : CubeCoords) : Bool :=
  a.x == b.x || a.y == b.y || a.z == b.z

/-- Line test on axial coordinates, via the Into CubeCoords conversion used
by the blanket impl in util.rs. -/
def AxialCoords.formsLineWith (a b : AxialCoords) : Bool :=
  (axialToCube a).formsLineWith (axialToCube b)

/-- State of the straight-line iterator (util.rs, LineIter). -/
structure LineIter where
  current : CubeCoords
  destination : CubeCoords
  step : CubeCoords
deriving DecidableEq

/-- One step of the iterator (util.rs lines 174-186, Iterator for LineIter).
The compound assignment current += step uses the AddAssign impl. -/
def LineIter.next (it : LineIter) : Option (CubeCoords × LineIter) :=
  if it.current = it.destination then
    none
  else
    some (it.current, { it with current := it.current.addAssign it.step })

/-- Construction of the line iterator (util.rs lines 159-165,
LineFormable::line_iter).  The initial current coordinate lhs_cube + step is
computed with the Add impl, i.e. CubeCoords.add. -/
def CubeCoords.lineIter (a b : CubeCoords) : LineIter :=
  let diff := b.sub a
  let step : CubeCoords := { x := diff.x.sign, y := diff.y.sign, z := diff.z.sign }
  { current := a.add step, step := step, destination := b }

/-- Line iterator on axial coordinates, via the Into CubeCoords conversion. -/
def AxialCoords.lineIter (a b : AxialCoords) : LineIter :=
  (axialToCube a).lineIter (axialToCube b)

/-- Runs the iterator for n steps, returning the state if it has not
finished; none means the iterator terminated within n steps. -/
def iterState : Nat → LineIter → Option LineIter
  | 0, it => some it
  | n + 1, it =>
    match it.next with
    | none => none
    | some (_, it') => iterState n it'

/-- Collects at most fuel elements produced by the iterator. -/
def LineIter.collect : Nat → LineIter → List CubeCoords
  | 0, _ => []
  | fuel + 1, it =>
    match it.next with
    | none => []
    | some (c, it') => c :: it'.collect fuel

/-- Helper for the C3 analysis: the state reached by the line iterator for
the inputs (0,1,-1) and (2,1,-3) after n steps. -/
def lineIterBugState (n : Nat) : LineIter :=
  { current := { x := 1 + (n : Int), y := 1, z := -(n : Int) },
    destination := { x := 2, y := 1, z := -3 },
    step := { x := 1, y := 0, z := -1 } }

/-- A player color (game.rs, PlayerColor). -/
inductive PlayerColor where
  | red
  | blue
deriving DecidableEq

/-- The opponent of a color (game.rs, HasOpponent for PlayerColor). -/
def PlayerColor.opponent : PlayerColor → PlayerColor
  | .red => .blue
  | .blue => .red

/-- A game piece type (game.rs, PieceType). -/
inductive PieceType where
  | ant
  | bee
  | beetle
  | grasshopper
  | spider
deriving DecidableEq

/-- A game piece (game.rs, Piece). -/
structure Piece where
  owner : PlayerColor
  pieceType : PieceType
deriving DecidableEq

/-- A field on the game board (game.rs, Field). -/
structure Field where
  pieceStack : List Piece
  isObstructed : Bool
deriving DecidableEq

/-- The top-most piece of a field; Vec::last maps to List.getLast?
(game.rs, Field::piece). -/
def Field.piece (f : Field) : Option Piece :=
  f.pieceStack.getLast?

/-- The color owning a field (game.rs, Field::owner). -/
def Field.owner (f : Field) : Option PlayerColor :=
  f.piece.map Piece.owner

/-- Ownership test (game.rs, Field::is_owned_by). -/
def Field.isOwnedBy (f : Field) (color : PlayerColor) : Bool :=
  f.owner == some color

/-- Test whether the field contains pieces (game.rs, Field::has_pieces). -/
def Field.hasPieces (f : Field) : Bool :=
  !f.pieceStack.isEmpty

/-- Occupation test (game.rs, Field::is_occupied). -/
def Field.isOccupied (f : Field) : Bool :=
  f.isObstructed || f.hasPieces

/-- Emptiness test (game.rs, Field::is_empty). -/
def Field.isEmptyField (f : Field) : Bool :=
  !f.isOccupied

/-- The game board; the HashMap of fields is modelled as an association
list (game.rs, Board). -/
structure Board where
  fields : List (AxialCoords × Field)
deriving DecidableEq

/-- Lookup of the field at given coordinates (game.rs, Board::field). -/
def Board.field (b : Board) (c : AxialCoords) : Option Field :=
  (b.fields.find? (fun p => p.1 == c)).map Prod.snd

/-- Occupation test treating missing fields as occupied
(game.rs lines 289-292, Board::is_occupied). -/
def Board.isOccupied (b : Board) (c : AxialCoords) : Bool :=
  ((b.field c).map Field.isOccupied).getD true

/-- All fields owned by a color (game.rs, Board::fields_owned_by). -/
def Board.fieldsOwnedBy (b : Board) (color : PlayerColor) : List (AxialCoords × Field) :=
  b.fields.filter (fun p => p.2.isOwnedBy color)

/-- All empty fields (game.rs, Board::empty_fields). -/
def Board.emptyFields (b : Board) : List (AxialCoords × Field) :=
  b.fields.filter (fun p => p.2.isEmptyField)

/-- Membership test for the board (game.rs, Board::contains_coords). -/
def Board.containsCoords (b : Board) (c : AxialCoords) : Bool :=
  (b.field c).isSome

/-- Test whether the board has any pieces (game.rs, Board::has_pieces). -/
def Board.hasPieces (b : Board) : Bool :=
  b.fields.any (fun p => p.2.hasPieces)

/-- The existing neighbor fields on the board (game.rs, Board::neighbors). -/
def Board.neighbors (b : Board) (c : AxialCoords) : List (AxialCoords × Field) :=
  c.coordNeighbors.filterMap (fun n => (b.field n).map (fun f => (n, f)))

/-- The unoccupied neighbor fields (game.rs, Board::empty_neighbors). -/
def Board.emptyNeighbors (b : Board) (c : AxialCoords) : List (AxialCoords × Field) :=
  (b.neighbors c).filter (fun p => p.2.isEmptyField)

/-- Test whether the bee of a color has been placed
(game.rs, Board::has_placed_bee). -/
def Board.hasPlacedBee (b : Board) (color : PlayerColor) : Bool :=
  b.fields.any (fun p => p.2.pieceStack.contains { pieceType := .bee, owner := color })

/-- Test whether the field at the coordinates is next to a color
(game.rs, Board::is_next_to). -/
def Board.isNextTo (b : Board) (color : PlayerColor) (c : AxialCoords) : Bool :=
  (b.neighbors c).any (fun p => p.2.isOwnedBy color)

/-- Empty fields connected to the swarm (game.rs, Board::swarm_boundary). -/
def Board.swarmBoundary (b : Board) : List (AxialCoords × Field) :=
  (b.fields.filter (fun p => p.2.isOccupied)).flatMap (fun p => b.emptyNeighbors p.1)

/-- Intersection of the neighbors of two coordinates; the HashSet
intersection of the source is modelled as a filter, which has the same
members (game.rs, Board::shared_neighbors). -/
def Board.sharedNeighbors (b : Board) (a c : AxialCoords) : List (AxialCoords × Field) :=
  (b.neighbors a).filter (fun p => (b.neighbors c).contains p)

/-- Test whether a move between two locations is possible
(game.rs lines 449-452, Board::can_move_between).  The length of the shared
neighbor list equals the cardinality of the HashSet intersection because the
six neighbor coordinates are pairwise distinct. -/
def Board.canMoveBetween (b : Board) (a c : AxialCoords) : Bool :=
  let shared := b.sharedNeighbors a c
  (shared.length == 1 || shared.any (fun p => p.2.isEmptyField))
    && shared.any (fun p => p.2.hasPieces)

/-- The accessible neighbors (game.rs, Board::accessible_neighbors). -/
def Board.accessibleNeighbors (b : Board) (c : AxialCoords) : List (AxialCoords × Field) :=
  (b.neighbors c).filter (fun p => p.2.isEmptyField && b.canMoveBetween c p.1)

/-- The coordinates carrying a field on the board. -/
def Board.keys (b : Board) : List AxialCoords :=
  b.fields.map Prod.fst

/-- Measure for the search loop: board coordinates not yet visited. -/
def bfsU (b : Board) (visited : List AxialCoords) : Nat :=
  (b.keys.filter (fun k => !visited.contains k)).length

/-- Measure for the search loop: queue entries lying outside the board. -/
def bfsR (b : Board) (queue : List AxialCoords) : Nat :=
  (queue.filter (fun c => !b.keys.contains c)).length

/-- Measure for the search loop: queue entries already visited. -/
def bfsD (queue visited : List AxialCoords) : Nat :=
  (queue.filter (fun c => visited.contains c)).length

/-- Breadth-first search over the accessible fields testing whether the
destination is reached (game.rs lines 394-412, Board.bfs_accessible,
specialised to the only search condition used, reaching the destination;
from Board.connected_by_boundary_path).  The queue and the visited set are
lists; the while loop of the source terminates and is embedded by
well-founded recursion: every iteration either visits a board coordinate
for the first time, or consumes a queue entry lying outside the board, or
consumes an already-visited queue entry while enqueueing only unvisited
ones. -/
def Board.bfsSearch (b : Board) (dest : AxialCoords) :
    List AxialCoords → List AxialCoords → Bool
  | [], _ => false
  | c :: rest, visited =>
    match hfc : b.field c with
    | some _ =>
      if c = dest then
        true
      else
        b.bfsSearch dest
          (rest ++ (b.accessibleNeighbors c).filterMap
            (fun p => if (c :: visited).contains p.1 then none else some p.1))
          (c :: visited)
    | none => b.bfsSearch dest rest (c :: visited)
termination_by queue visited => (bfsU b visited, bfsR b queue, bfsD queue visited)
decreasing_by
  all_goals simp_wf
  all_goals
    have hmemkeys : ∀ z (fz : Field), b.field z = some fz → z ∈ b.keys := by
      intro z fz hf
      rw [Board.field] at hf
      cases hfind : b.fields.find? (fun q => q.1 == z) with
      | none => rw [hfind] at hf; cases hf
      | some q =>
        have hq : q.1 = z := by simpa using List.find?_some hfind
        exact hq ▸ List.mem_map_of_mem Prod.fst (List.mem_of_find?_eq_some hfind)
  · rename_i hne
    have hkey : c ∈ b.keys := hmemkeys c _ hfc
    have hadds : ∀ x ∈ (b.accessibleNeighbors c).filterMap
        (fun p => if p.1 = c ∨ p.1 ∈ visited then none else some p.1),
        x ∈ b.keys ∧ ¬ (x = c ∨ x ∈ visited) := by
      intro x hx
      rcases List.mem_filterMap.mp hx with ⟨p, hp, hps⟩
      have hcx : ¬ (p.1 = c ∨ p.1 ∈ visited) ∧ p.1 = x := by
        by_cases hcnd : p.1 = c ∨ p.1 ∈ visited
        · rw [if_pos hcnd] at hps; cases hps
        · rw [if_neg hcnd] at hps; exact ⟨hcnd, Option.some.inj hps⟩
      have hpn : p ∈ b.neighbors c := List.mem_of_mem_filter hp
      rcases List.mem_filterMap.mp hpn with ⟨n, _, hn⟩
      rcases Option.map_eq_some'.mp hn with ⟨f, hf, hpf⟩
      cases hpf
      exact ⟨hcx.2 ▸ hmemkeys n f hf, hcx.2 ▸ hcx.1⟩
    by_cases hcv : c ∈ visited
    · have hu : bfsU b (c :: visited) = bfsU b visited := by
        unfold bfsU
        congr 1
        apply List.filter_congr
        intro k _
        simp only [List.contains_cons]
        by_cases hk : k = c
        · subst hk; simp [hcv]
        · simp [hk]
      have hr : bfsR b (rest ++ (b.accessibleNeighbors c).filterMap
          (fun p => if p.1 = c ∨ p.1 ∈ visited then none else some p.1))
          = bfsR b (c :: rest) := by
        unfold bfsR
        rw [List.filter_append]
        have h1 : ((b.accessibleNeighbors c).filterMap
            (fun p => if p.1 = c ∨ p.1 ∈ visited then none else some p.1)).filter
            (fun x => !b.keys.contains x) = [] := by
          rw [List.filter_eq_nil_iff]
          intro x hx
          simp [(hadds x hx).1]
        rw [h1, List.append_nil, List.filter_cons]
        simp [hkey]
      have hd : bfsD (rest ++ (b.accessibleNeighbors c).filterMap
          (fun p => if p.1 = c ∨ p.1 ∈ visited then none else some p.1)) (c :: visited)
          < bfsD (c :: rest) visited := by
        unfold bfsD
        rw [List.filter_append]
        have h1 : ((b.accessibleNeighbors c).filterMap
            (fun p => if p.1 = c ∨ p.1 ∈ visited then none else some p.1)).filter
            (fun x => (c :: visited).contains x) = [] := by
          rw [List.filter_eq_nil_iff]
          intro x hx
          have hx2 := (hadds x hx).2
          rw [not_or] at hx2
          simp only [List.contains_cons]
          simp [hx2.1, hx2.2]
        rw [h1, List.append_nil]
        have h2 : rest.filter (fun x => (c :: visited).contains x)
            = rest.filter (fun x => visited.contains x) := by
          apply List.filter_congr
          intro k _
          simp only [List.contains_cons]
          by_cases hk : k = c
          · subst hk; simp [hcv]
          · simp [hk]
        rw [h2, List.filter_cons]
        simp [hcv, Nat.lt_succ_self]
      rw [hu, hr]
      exact Prod.Lex.right _ (Prod.Lex.right _ hd)
    · have hu : bfsU b (c :: visited) < bfsU b visited := by
        unfold bfsU
        have hsub : List.Sublist (b.keys.filter (fun k => !(c :: visited).contains k))
            (b.keys.filter (fun k => !visited.contains k)) := by
          apply List.monotone_filter_right
          intro a ha
          simp only [List.contains_cons, Bool.not_eq_true', Bool.or_eq_false_iff] at ha
          simpa using ha.2
        refine Nat.lt_of_le_of_ne hsub.length_le ?_
        intro he
        have heq := hsub.eq_of_length he
        have hcp : c ∈ b.keys.filter (fun k => !visited.contains k) := by
          rw [List.mem_filter]
          exact ⟨hkey, by simp [hcv]⟩
        rw [← heq, List.mem_filter] at hcp
        simp at hcp
      exact Prod.Lex.left _ _ hu
  · have hnk : ¬ c ∈ b.keys := by
      intro hmem
      rcases List.mem_map.mp hmem with ⟨p, hp, hpc⟩
      rw [Board.field] at hfc
      cases hfind : b.fields.find? (fun q => q.1 == c) with
      | none =>
        have := List.find?_eq_none.mp hfind p hp
        simp [hpc] at this
      | some q => rw [hfind] at hfc; cases hfc
    have hu : bfsU b (c :: visited) = bfsU b visited := by
      unfold bfsU
      congr 1
      apply List.filter_congr
      intro k hk
      have hkc : ¬ k = c := fun he => hnk (he ▸ hk)
      simp [List.contains_cons, hkc]
    have hr : bfsR b rest < bfsR b (c :: rest) := by
      unfold bfsR
      rw [List.filter_cons]
      simp [hnk, Nat.lt_succ_self]
    rw [hu]
    exact Prod.Lex.right _ (Prod.Lex.left _ _ hr)

/-- Test whether two coordinates are connected by a path along the swarm
boundary (game.rs lines 461-465, Board.connected_by_boundary_path). -/
def Board.connectedByBoundaryPath (b : Board) (start dest : AxialCoords) : Bool :=
  b.bfsSearch dest [start] []

/-- One accessible step of the boundary search: y is an accessible neighbor
of x.  Used to state the correctness of the search. -/
def StepE (b : Board) (x y : AxialCoords) : Prop :=
  ∃ p, p ∈ b.accessibleNeighbors x ∧ p.1 = y

/-- Reachability along accessible steps. -/
def ReachE (b : Board) : AxialCoords → AxialCoords → Prop :=
  Relation.ReflTransGen (StepE b)

/-- Breadth-first search of paths of up to three steps (game.rs lines
416-438, Board::bfs_reachable_in_3_steps); the queue holds paths, embedded
with fuel.  At most 43 paths are ever enqueued, so fuel 64 covers every
board. -/
def Board.bfs3Aux (b : Board) (dest : AxialCoords) :
    Nat → List (List AxialCoords) → Bool
  | 0, _ => false
  | _ + 1, [] => false
  | fuel + 1, path :: rest =>
    let last := (path.getLast?).getD { x := 0, y := 0 }
    let nbrs := (b.accessibleNeighbors last).filter (fun p => !path.contains p.1)
    if path.length < 3 then
      b.bfs3Aux dest fuel (rest ++ nbrs.map (fun p => path ++ [p.1]))
    else if nbrs.any (fun p => p.1 == dest) then
      true
    else
      b.bfs3Aux dest fuel rest

/-- Test whether the destination is reachable in exactly 3 accessible steps
(game.rs, Board::bfs_reachable_in_3_steps). -/
def Board.bfsReachableIn3Steps (b : Board) (start dest : AxialCoords) : Bool :=
  b.bfs3Aux dest 64 [[start]]

/-- Removes the coordinates from the unvisited list; HashSet::remove on the
duplicate-free unvisited set maps to List.erase. -/
def removeCoords (unvisited : List AxialCoords) (c : AxialCoords) : List AxialCoords :=
  unvisited.erase c

/-- Depth-first search of the swarm, removing visited locations from the
unvisited list (game.rs lines 381-390, Board::dfs_swarm); the recursion is
embedded with fuel, and the for loop over neighbors is a fold. -/
def Board.dfsSwarm (b : Board) :
    Nat → AxialCoords → List AxialCoords → List AxialCoords
  | 0, _, unvisited => unvisited
  | fuel + 1, c, unvisited =>
    match b.field c with
    | some f =>
      if f.hasPieces then
        (b.neighbors c).foldl
          (fun unv p => if unv.contains p.1 then b.dfsSwarm fuel p.1 unv else unv)
          (removeCoords unvisited c)
      else
        unvisited
    | none => unvisited

/-- Test whether the swarm is connected (game.rs lines 469-480,
Board::is_swarm_connected); the arbitrary HashSet iteration start is
modelled by the head of the list of piece-holding coordinates. -/
def Board.isSwarmConnected (b : Board) : Bool :=
  let unvisited := b.fields.filterMap
    (fun p => if p.2.hasPieces then some p.1 else none)
  match unvisited with
  | [] => true
  | start :: _ => (b.dfsSwarm (b.fields.length + 1) start unvisited).isEmpty

/-- An owned field together with a position (game.rs, PositionedField). -/
structure PositionedField where
  field : Field
  coords : AxialCoords
deriving DecidableEq

/-- A transition between two game states (game.rs, Move). -/
inductive Move where
  | setMove (piece : Piece) (destination : PositionedField)
  | dragMove (start : PositionedField) (destination : PositionedField)
deriving DecidableEq

/-- The initial set of piece types of each player (game.rs,
INITIAL_PIECE_TYPES). -/
def INITIAL_PIECE_TYPES : List PieceType :=
  [.bee, .spider, .spider, .spider, .grasshopper, .grasshopper,
   .beetle, .beetle, .ant, .ant, .ant]

/-- A snapshot of the game state (game.rs, GameState).  The player metadata
and color bookkeeping fields, which none of the verified operations read,
are omitted. -/
structure GameState where
  turn : Nat
  board : Board
  undeployedRedPieces : List Piece
  undeployedBluePieces : List Piece
deriving DecidableEq

/-- The undeployed pieces of a color (game.rs,
GameState::undeployed_pieces). -/
def GameState.undeployedPieces (g : GameState) : PlayerColor → List Piece
  | .red => g.undeployedRedPieces
  | .blue => g.undeployedBluePieces

/-- The current round, half the turn (game.rs, GameState::round). -/
def GameState.round (g : GameState) : Nat :=
  g.turn / 2

/-- Result type of the validators; SCResult of the client maps to Except
with a message. -/
abbrev SCResult (α : Type) := Except String α

/-- Boolean success test for a validation result. -/
def isOkResult (r : SCResult Unit) : Bool :=
  match r with
  | .ok _ => true
  | .error _ => false

/-- Adjacency validation (game.rs, GameState::validate_adjacent). -/
def GameState.validateAdjacent (_g : GameState) (start destination : AxialCoords) :
    SCResult Unit :=
  if start.isAdjacentTo destination then .ok ()
  else .error "Coords are not adjacent to each other"

/-- Ant move validation (game.rs, GameState::validate_ant_move). -/
def GameState.validateAntMove (g : GameState) (start destination : AxialCoords) :
    SCResult Unit :=
  if g.board.connectedByBoundaryPath start destination then .ok ()
  else .error "Could not find path for ant"

/-- Bee move validation (game.rs, GameState::validate_bee_move). -/
def GameState.validateBeeMove (g : GameState) (start destination : AxialCoords) :
    SCResult Unit := do
  g.validateAdjacent start destination
  if g.board.canMoveBetween start destination then .ok ()
  else .error "Cannot move between fields"

/-- Beetle move validation (game.rs, GameState::validate_beetle_move). -/
def GameState.validateBeetleMove (g : GameState) (start destination : AxialCoords) :
    SCResult Unit := do
  g.validateAdjacent start destination
  if (g.board.sharedNeighbors start destination).any (fun p => p.2.hasPieces)
      || ((g.board.field destination).map Field.hasPieces).getD false then
    .ok ()
  else
    .error "Beetle has to move along swarm"

/-- Grasshopper move validation (game.rs, GameState::validate_grasshopper_move).
The iteration over line_iter is collected with fuel; because of the Add slip
the Rust iterator can be infinite, in which case the Rust any combinator
either finds an empty field and stops or loops forever, so the bounded
collection is exact whenever the Rust call returns. -/
def GameState.validateGrasshopperMove (g : GameState) (start destination : AxialCoords) :
    SCResult Unit :=
  if !start.formsLineWith destination then
    .error "Grasshopper can only move along straight lines"
  else if start.isAdjacentTo destination then
    .error "Grasshopper must not move to a neighbor"
  else if ((start.lineIter destination).collect (g.board.fields.length + 16)).any
      (fun c => ((g.board.field (cubeToAxial c)).map Field.isEmptyField).getD false) then
    .error "Grasshopper cannot move over empty fields"
  else
    .ok ()

/-- Spider move validation (game.rs, GameState::validate_spider_move). -/
def GameState.validateSpiderMove (g : GameState) (start destination : AxialCoords) :
    SCResult Unit :=
  if g.board.bfsReachableIn3Steps start destination then .ok ()
  else .error "No 3-step path found for Spider move"

/-- Set move validation (game.rs lines 542-567, GameState::validate_set_move).
The branch structure, including the repeated own-color neighbor test of
lines 560 and 562, is embedded verbatim. -/
def GameState.validateSetMove (g : GameState) (color : PlayerColor) (piece : Piece)
    (destination : AxialCoords) : SCResult Unit :=
  if !g.board.containsCoords destination then
    .error "Move destination is out of bounds"
  else if ((g.board.field destination).map Field.isObstructed).getD true then
    .error "Move destination is obstructed"
  else if !g.board.fields.any (fun p => p.2.hasPieces) then
    .ok ()
  else if (g.board.fieldsOwnedBy color).length == 0 then
    if g.board.isNextTo color.opponent destination then
      .ok ()
    else
      .error "Piece has to be placed next to an opponent piece"
  else if g.round == 3 && !g.board.hasPlacedBee color && piece.pieceType != .bee then
    .error "Bee has to be placed in the fourth round or earlier"
  else if !(g.undeployedPieces color).contains piece then
    .error "Piece is not undeployed"
  else if !(g.board.neighbors destination).any (fun p => p.2.isOwnedBy color) then
    .error "Piece is not placed next to an own piece"
  else if (g.board.neighbors destination).any (fun p => p.2.isOwnedBy color) then
    .error "Piece must not be placed next to an opponent piece"
  else
    .ok ()

/-- The board with the top piece of the stack at the given coordinates
popped; this is the disposable clone constructed by validate_drag_move
(game.rs lines 585-590), where Vec::pop removes the last stack element. -/
def Board.popAt (b : Board) (start : AxialCoords) : Board :=
  { fields := b.fields.map
      (fun p => if p.1 = start
        then (p.1, { p.2 with pieceStack := p.2.pieceStack.dropLast })
        else p) }

/-- Drag move validation (game.rs lines 569-603,
GameState::validate_drag_move).  The simulated-removal connectivity check
clones the board and pops the start stack, embedded by Board.popAt; the
error branch of the source for a missing start field is unreachable because
contains_coords start was already checked. -/
def GameState.validateDragMove (g : GameState) (color : PlayerColor)
    (start destination : AxialCoords) : SCResult Unit :=
  if !g.board.hasPlacedBee color then
    .error "Bee has to be placed before committing a drag move"
  else if !g.board.containsCoords start then
    .error "Move start is out of bounds"
  else if !g.board.containsCoords destination then
    .error "Move destination is out of bounds"
  else
    match (g.board.field start).bind Field.piece with
    | some draggedPiece =>
      if draggedPiece.owner != color then
        .error "Cannot move opponent piece"
      else if start = destination then
        .error "Cannot move when start is the destination"
      else if (((g.board.field destination).bind Field.piece).map
          (fun p => p.pieceType == PieceType.beetle)).getD false then
        .error "Only beetles can climb other pieces"
      else if !(g.board.popAt start).isSwarmConnected then
        .error "Drag move would disconnect the swarm"
      else
        match draggedPiece.pieceType with
        | .ant => g.validateAntMove start destination
        | .bee => g.validateBeeMove start destination
        | .beetle => g.validateBeetleMove start destination
        | .grasshopper => g.validateGrasshopperMove start destination
        | .spider => g.validateSpiderMove start destination
    | none => .error "No piece to move"

/-- Move validation (game.rs lines 606-611, GameState::validate_move). -/
def GameState.validateMove (g : GameState) (color : PlayerColor) :
    Move → SCResult Unit
  | .setMove piece destination => g.validateSetMove color piece destination.coords
  | .dragMove start destination => g.validateDragMove color start.coords destination.coords

/-- Deduplication keeping first occurrences, as the itertools unique
adapter. -/
def uniqueFirst (l : List (AxialCoords × Field)) : List (AxialCoords × Field) :=
  l.foldl (fun acc a => if acc.contains a then acc else acc ++ [a]) []

/-- The possible destinations for a SetMove (game.rs lines 362-376,
Board::possible_set_move_destinations). -/
def Board.possibleSetMoveDestinations (b : Board) (color : PlayerColor) :
    List AxialCoords :=
  (uniqueFirst ((b.fieldsOwnedBy color).flatMap (fun p => b.emptyNeighbors p.1))).filterMap
    (fun p => if b.isNextTo color.opponent p.1 then none else some p.1)

/-- The list of possible SetMoves (game.rs lines 614-653,
GameState::possible_set_moves). -/
def GameState.possibleSetMoves (g : GameState) (color : PlayerColor) : List Move :=
  let undeployed := g.undeployedPieces color
  let opponent := color.opponent
  let destinationCoords : List AxialCoords :=
    if undeployed.length == INITIAL_PIECE_TYPES.length then
      if (g.undeployedPieces opponent).length == INITIAL_PIECE_TYPES.length then
        g.board.emptyFields.map Prod.fst
      else
        ((g.board.fieldsOwnedBy opponent).flatMap
          (fun p => g.board.emptyNeighbors p.1)).map Prod.fst
    else
      g.board.possibleSetMoveDestinations color
  let destinations : List PositionedField :=
    destinationCoords.filterMap
      (fun c => (g.board.field c).map (fun f => { coords := c, field := f }))
  if !g.board.hasPlacedBee color && g.turn > 5 then
    destinations.map
      (fun d => .setMove { pieceType := .bee, owner := color } d)
  else
    destinations.flatMap
      (fun d => undeployed.map (fun p => Move.setMove p d))

/-- The validated move (game.rs, GameState::validated). -/
def GameState.validated (g : GameState) (color : PlayerColor) (m : Move) :
    Except String Move :=
  (g.validateMove color m).map (fun _ => m)

/-- The list of possible DragMoves (game.rs lines 661-678,
GameState::possible_drag_moves). -/
def GameState.possibleDragMoves (g : GameState) (color : PlayerColor) : List Move :=
  (g.board.fieldsOwnedBy color).flatMap (fun sp =>
    let targets := g.board.swarmBoundary ++
      (if (sp.2.piece).any (fun p => p.pieceType == PieceType.beetle)
        then g.board.neighbors sp.1 else [])
    targets.filterMap (fun tp =>
      (g.validated color (.dragMove { coords := sp.1, field := sp.2 }
        { coords := tp.1, field := tp.2 })).toOption))

/-- The list of possible moves (game.rs lines 681-688,
GameState::possible_moves). -/
def GameState.possibleMoves (g : GameState) (color : PlayerColor) : List Move :=
  g.possibleSetMoves color ++ g.possibleDragMoves color

-- Concrete fixtures used by the counterexample and witness theorems below.

def emptyF : Field := { pieceStack := [], isObstructed := false }

def pieceF (p : Piece) : Field := { pieceStack := [p], isObstructed := false }

def redBee : Piece := { owner := .red, pieceType := .bee }

def blueBee : Piece := { owner := .blue, pieceType := .bee }

def blueAnt : Piece := { owner := .blue, pieceType := .ant }

def redAnt : Piece := { owner := .red, pieceType := .ant }

def tenPieces (c : PlayerColor) : List Piece :=
  [ { owner := c, pieceType := .ant },
    { owner := c, pieceType := .ant },
    { owner := c, pieceType := .ant },
    { owner := c, pieceType := .spider },
    { owner := c, pieceType := .spider },
    { owner := c, pieceType := .spider },
    { owner := c, pieceType := .grasshopper },
    { owner := c, pieceType := .grasshopper },
    { owner := c, pieceType := .beetle },
    { owner := c, pieceType := .beetle } ]

def boardCEx : Board :=
  { fields := [ ({ x := 0, y := 0 }, pieceF redBee),
                ({ x := 2, y := 0 }, pieceF blueBee),
                ({ x := 0, y := 1 }, emptyF) ] }

def gsCEx : GameState :=
  { turn := 2, board := boardCEx,
    undeployedRedPieces := tenPieces .red,
    undeployedBluePieces := tenPieces .blue }

def mvCEx : Move :=
  .setMove redAnt { field := emptyF, coords := { x := 0, y := 1 } }

def boardC4 : Board :=
  { fields := [ ({ x := 0, y := 0 }, pieceF redBee),
                ({ x := 1, y := 0 }, pieceF blueAnt),
                ({ x := 1, y := -1 }, pieceF blueBee),
                ({ x := 0, y := 1 }, emptyF) ] }

def gsC4 : GameState :=
  { turn := 4, board := boardC4,
    undeployedRedPieces := tenPieces .red,
    undeployedBluePieces := tenPieces .blue }

def boardC8 : Board :=
  { fields := [ ({ x := 0, y := 0 }, pieceF redBee),
                ({ x := 1, y := 0 }, emptyF),
                ({ x := 1, y := -1 }, pieceF blueBee),
                ({ x := 0, y := 1 }, emptyF) ] }

-- Theorems.

theorem lineIterBugState_step (n : Nat) :
    (lineIterBugState n).next = some ((lineIterBugState n).current, lineIterBugState (n + 1)) := by
  have hne : (lineIterBugState n).current ≠ (lineIterBugState n).destination := by
    intro h
    have hx : (1 : Int) + n = 2 := congrArg CubeCoords.x h
    have hz : -(n : Int) = -3 := congrArg CubeCoords.z h
    omega
  unfold LineIter.next
  rw [if_neg hne]
  simp only [lineIterBugState, CubeCoords.addAssign, Option.some.injEq, Prod.mk.injEq,
    LineIter.mk.injEq, CubeCoords.mk.injEq, and_true, true_and, eq_self_iff_true]
  push_cast
  exact ⟨by ring, trivial, by ring⟩

theorem iterState_lineIterBugState (n k : Nat) :
    iterState n (lineIterBugState k) = some (lineIterBugState (k + n)) := by
  induction n generalizing k with
  | zero => rfl
  | succ m ih =>
    rw [iterState, lineIterBugState_step k]
    show iterState m (lineIterBugState (k + 1)) = some (lineIterBugState (k + (m + 1)))
    rw [ih (k + 1)]
    have h : k + 1 + m = k + (m + 1) := by omega
    rw [h]

/-- C3: the claim states that for cube coordinates a, b forming a line with
a different from b, line_iter(a, b) yields a finite sequence, namely the
coordinates strictly between a and b.  This fails: because the Add impl for
CubeCoords (util.rs line 253) computes the z component from self.y, the
iterator for a = (0,1,-1), b = (2,1,-3) starts at (1,1,0) instead of
(1,1,-2) and never reaches its destination; after any number of steps it
still produces a further element, so the sequence is infinite. -/
theorem lineIter_zSlip_diverges (n : Nat) :
    CubeCoords.formsLineWith { x := 0, y := 1, z := -1 } { x := 2, y := 1, z := -3 } = true ∧
    (CubeCoords.lineIter { x := 0, y := 1, z := -1 } { x := 2, y := 1, z := -3 }).current
      = { x := 1, y := 1, z := 0 } ∧
    (iterState n (CubeCoords.lineIter { x := 0, y := 1, z := -1 } { x := 2, y := 1, z := -3 })).isSome = true := by
  have hinit : CubeCoords.lineIter { x := 0, y := 1, z := -1 } { x := 2, y := 1, z := -3 }
      = lineIterBugState 0 := by
    simp only [CubeCoords.lineIter, CubeCoords.sub, CubeCoords.add, lineIterBugState]
    decide
  refine ⟨by decide, by rw [hinit]; decide, ?_⟩
  rw [hinit, iterState_lineIterBugState]
  rfl

/-- C5 counterexample: the claim lists (1,1) among the neighbor offsets, but
coord_neighbors of the origin does not contain (1,1); the source offsets are
(0,1),(1,0),(1,-1),(0,-1),(-1,0),(-1,1). -/
theorem coordNeighbors_claimed_offsets_false :
    ((⟨1, 1⟩ : AxialCoords) ∈ List.map (AxialCoords.add ⟨0, 0⟩)
        [⟨-1, 0⟩, ⟨0, 1⟩, ⟨1, 1⟩, ⟨1, 0⟩, ⟨0, -1⟩, ⟨-1, -1⟩]) ∧
    ¬ ((⟨1, 1⟩ : AxialCoords) ∈ AxialCoords.coordNeighbors ⟨0, 0⟩) := by
  decide

/-- C5 amended: for every axial coordinate c, coord_neighbors(c) consists
exactly of the six coordinates obtained by adding the offsets
(-1,0),(0,1),(1,-1),(1,0),(0,-1),(-1,1) to c (as a set; order irrelevant). -/
theorem coordNeighbors_eq_offsets (c d : AxialCoords) :
    d ∈ c.coordNeighbors ↔
      d ∈ List.map c.add [⟨-1, 0⟩, ⟨0, 1⟩, ⟨1, -1⟩, ⟨1, 0⟩, ⟨0, -1⟩, ⟨-1, 1⟩] := by
  simp only [AxialCoords.coordNeighbors, List.map, List.mem_cons, List.not_mem_nil, or_false]
  tauto

/-- C6: the claim states that axial-to-cube conversion yields coordinates
with x + y + z = 0 (which holds, first conjunct, shown at the general
definition via the third conjunct) and that the sum of two cube coordinates
that each satisfy the invariant satisfies it again.  The latter fails: the
Add impl for CubeCoords (util.rs line 253) computes z as self.y + rhs.z, so
already (1,-1,0) + (1,-1,0) = (2,-2,-1), whose components sum to -1. -/
theorem cubeAdd_breaks_invariant :
    ((1 : Int) + (-1) + 0 = 0) ∧
    (CubeCoords.add ⟨1, -1, 0⟩ ⟨1, -1, 0⟩ = ⟨2, -2, -1⟩) ∧
    (∀ a : AxialCoords, (axialToCube a).x + (axialToCube a).y + (axialToCube a).z = 0) ∧
    ¬ ((CubeCoords.add ⟨1, -1, 0⟩ ⟨1, -1, 0⟩).x
        + (CubeCoords.add ⟨1, -1, 0⟩ ⟨1, -1, 0⟩).y
        + (CubeCoords.add ⟨1, -1, 0⟩ ⟨1, -1, 0⟩).z = 0) := by
  refine ⟨by decide, by decide, ?_, by decide⟩
  intro a
  simp only [axialToCube]
  ring

/-- C7: converting an axial coordinate to cube coordinates and back is the
identity, and converting it to doubled coordinates and back is the identity
(the truncating division divides an even number exactly). -/
theorem axial_conversion_roundtrips (a : AxialCoords) :
    cubeToAxial (axialToCube a) = a ∧ doubledToAxial (axialToDoubled a) = a := by
  obtain ⟨x, y⟩ := a
  refine ⟨rfl, ?_⟩
  simp only [doubledToAxial, axialToDoubled, AxialCoords.mk.injEq]
  constructor
  · have h : x - y - -(x + y) = 2 * x := by ring
    rw [h, Int.mul_tdiv_cancel_left x (by decide)]
  · have h : -(x - y + -(x + y)) = 2 * y := by ring
    rw [h, Int.mul_tdiv_cancel_left y (by decide)]

-- helper: neighbors membership gives a field lookup
theorem field_eq_of_mem_neighbors {b : Board} {c : AxialCoords} {p : AxialCoords × Field}
    (h : p ∈ b.neighbors c) : b.field p.1 = some p.2 := by
  rcases List.mem_filterMap.mp h with ⟨n, _, hn⟩
  rcases Option.map_eq_some'.mp hn with ⟨f, hf, hpf⟩
  cases hpf
  exact hf

theorem coords_mem_of_mem_neighbors {b : Board} {c : AxialCoords} {p : AxialCoords × Field}
    (h : p ∈ b.neighbors c) : p.1 ∈ c.coordNeighbors := by
  rcases List.mem_filterMap.mp h with ⟨n, hn1, hn⟩
  rcases Option.map_eq_some'.mp hn with ⟨f, _, hpf⟩
  cases hpf
  exact hn1

theorem mem_neighbors_iff {b : Board} {c x : AxialCoords} {f : Field} :
    (x, f) ∈ b.neighbors c ↔ x ∈ c.coordNeighbors ∧ b.field x = some f := by
  constructor
  · intro h
    exact ⟨coords_mem_of_mem_neighbors h, field_eq_of_mem_neighbors h⟩
  · intro ⟨h1, h2⟩
    exact List.mem_filterMap.mpr ⟨x, h1, by rw [h2]; rfl⟩

theorem mem_accessibleNeighbors_iff {b : Board} {c x : AxialCoords} {f : Field} :
    (x, f) ∈ b.accessibleNeighbors c ↔
      x ∈ c.coordNeighbors ∧ b.field x = some f ∧ f.isEmptyField = true
        ∧ b.canMoveBetween c x = true := by
  rw [Board.accessibleNeighbors]
  constructor
  · intro h
    have h1 := List.mem_filter.mp h
    have h2 := mem_neighbors_iff.mp h1.1
    have h3 := h1.2
    simp only [Bool.and_eq_true] at h3
    exact ⟨h2.1, h2.2, h3.1, h3.2⟩
  · intro ⟨h1, h2, h3, h4⟩
    apply List.mem_filter.mpr
    refine ⟨mem_neighbors_iff.mpr ⟨h1, h2⟩, ?_⟩
    simp only [Bool.and_eq_true]
    exact ⟨h3, h4⟩

theorem bfsSearch_nil (b : Board) (dest : AxialCoords) (visited : List AxialCoords) :
    b.bfsSearch dest [] visited = false := by
  rw [Board.bfsSearch]

theorem bfsSearch_cons_some (b : Board) (dest c : AxialCoords)
    (rest visited : List AxialCoords) (f : Field) (hfc : b.field c = some f) :
    b.bfsSearch dest (c :: rest) visited =
      if c = dest then true
      else b.bfsSearch dest
        (rest ++ (b.accessibleNeighbors c).filterMap
          (fun p => if (c :: visited).contains p.1 then none else some p.1))
        (c :: visited) := by
  rw [Board.bfsSearch.eq_2]
  split
  · rfl
  · rename_i heq
    rw [hfc] at heq
    cases heq

theorem bfsSearch_cons_none (b : Board) (dest c : AxialCoords)
    (rest visited : List AxialCoords) (hfc : b.field c = none) :
    b.bfsSearch dest (c :: rest) visited = b.bfsSearch dest rest (c :: visited) := by
  rw [Board.bfsSearch.eq_2]
  split
  · rename_i heq
    rw [hfc] at heq
    cases heq
  · rfl

theorem mem_bfs_adds {b : Board} {c x : AxialCoords} {visited : List AxialCoords}
    (h : x ∈ (b.accessibleNeighbors c).filterMap
      (fun p => if (c :: visited).contains p.1 then none else some p.1)) :
    ∃ f, b.field x = some f ∧ f.isEmptyField = true ∧ b.canMoveBetween c x = true
      ∧ x ∈ c.coordNeighbors ∧ ¬ x ∈ (c :: visited) := by
  rcases List.mem_filterMap.mp h with ⟨p, hp, hps⟩
  have hcx : ((c :: visited).contains p.1) = false ∧ p.1 = x := by
    by_cases hcnd : ((c :: visited).contains p.1) = true
    · rw [if_pos hcnd] at hps; cases hps
    · rw [if_neg hcnd] at hps
      exact ⟨Bool.not_eq_true _ ▸ eq_false_of_ne_true hcnd, Option.some.inj hps⟩
  obtain ⟨y, f⟩ := p
  obtain ⟨hc1, hc2⟩ := hcx
  have hc3 : y = x := hc2
  subst hc3
  have hacc := mem_accessibleNeighbors_iff.mp hp
  refine ⟨f, hacc.2.1, hacc.2.2.1, hacc.2.2.2, hacc.1, ?_⟩
  intro hmem
  have hcont : (c :: visited).contains y = true := by
    simpa using hmem
  rw [hc1] at hcont
  cases hcont

theorem bfsSearch_false_of_occupied_dest (b : Board) (dest : AxialCoords)
    (hdest : b.isOccupied dest = true) (queue visited : List AxialCoords)
    (hq : ¬ dest ∈ queue) : b.bfsSearch dest queue visited = false := by
  induction queue, visited using Board.bfsSearch.induct b dest with
  | case1 v => exact bfsSearch_nil b dest v
  | case2 rest v f hfc => exact absurd (List.mem_cons_self _ _) hq
  | case3 c rest v f hfc hne ih =>
    rw [bfsSearch_cons_some b dest c rest v f hfc, if_neg hne]
    apply ih
    intro hmem
    rcases List.mem_append.mp hmem with h1 | h2
    · exact hq (List.mem_cons_of_mem _ h1)
    · rcases mem_bfs_adds h2 with ⟨f2, hf2, hemp, _, _, _⟩
      rw [Board.isOccupied, hf2] at hdest
      simp only [Option.map_some', Option.getD_some] at hdest
      rw [Field.isEmptyField, hdest] at hemp
      cases hemp
  | case4 c rest v hfc ih =>
    rw [bfsSearch_cons_none b dest c rest v hfc]
    exact ih (fun hm => hq (List.mem_cons_of_mem _ hm))

theorem bfsSearch_sound (b : Board) (dest a : AxialCoords) :
    ∀ queue visited, (∀ q ∈ queue, ReachE b a q) →
      b.bfsSearch dest queue visited = true → ReachE b a dest := by
  intro queue visited
  induction queue, visited using Board.bfsSearch.induct b dest with
  | case1 v =>
    intro _ htrue
    rw [bfsSearch_nil] at htrue
    cases htrue
  | case2 rest v f hfc =>
    intro hq _
    exact hq dest (List.mem_cons_self _ _)
  | case3 c rest v f hfc hne ih =>
    intro hq htrue
    rw [bfsSearch_cons_some b dest c rest v f hfc, if_neg hne] at htrue
    refine ih ?_ htrue
    intro q hmem
    rcases List.mem_append.mp hmem with h1 | h2
    · exact hq q (List.mem_cons_of_mem _ h1)
    · rcases List.mem_filterMap.mp h2 with ⟨p, hp, hps⟩
      have hpq : p.1 = q := by
        split at hps
        · cases hps
        · exact Option.some.inj hps
      exact Relation.ReflTransGen.tail (hq c (List.mem_cons_self _ _)) ⟨p, hp, hpq⟩
  | case4 c rest v hfc ih =>
    intro hq htrue
    rw [bfsSearch_cons_none b dest c rest v hfc] at htrue
    exact ih (fun q hm => hq q (List.mem_cons_of_mem _ hm)) htrue

theorem coordNeighbors_nodup (c : AxialCoords) : c.coordNeighbors.Nodup := by
  obtain ⟨cx, cy⟩ := c
  simp only [AxialCoords.coordNeighbors, AxialCoords.add, List.nodup_cons,
    List.mem_cons, List.mem_singleton, List.not_mem_nil, List.nodup_nil,
    AxialCoords.mk.injEq, not_or, and_true, true_and, and_false, false_and,
    not_false_eq_true]
  omega

theorem mem_coordNeighbors_symm {x y : AxialCoords}
    (h : y ∈ x.coordNeighbors) : x ∈ y.coordNeighbors := by
  obtain ⟨xa, xb⟩ := x
  obtain ⟨ya, yb⟩ := y
  simp only [AxialCoords.coordNeighbors, AxialCoords.add, List.mem_cons,
    List.not_mem_nil, AxialCoords.mk.injEq, or_false] at h ⊢
  omega

theorem neighbors_nodup (b : Board) (c : AxialCoords) : (b.neighbors c).Nodup := by
  rw [Board.neighbors]
  apply List.Nodup.filterMap _ (coordNeighbors_nodup c)
  intro a a2 p ha ha2
  rcases Option.map_eq_some'.mp ha with ⟨f, _, hpf⟩
  rcases Option.map_eq_some'.mp ha2 with ⟨f2, _, hpf2⟩
  rw [← hpf2] at hpf
  exact congrArg Prod.fst hpf

theorem mem_sharedNeighbors_iff {b : Board} {x y : AxialCoords} {p : AxialCoords × Field} :
    p ∈ b.sharedNeighbors x y ↔ p ∈ b.neighbors x ∧ p ∈ b.neighbors y := by
  rw [Board.sharedNeighbors]
  rw [List.mem_filter]
  constructor
  · intro ⟨h1, h2⟩
    exact ⟨h1, by simpa using h2⟩
  · intro ⟨h1, h2⟩
    exact ⟨h1, by simpa using h2⟩

theorem sharedNeighbors_perm (b : Board) (x y : AxialCoords) :
    (b.sharedNeighbors x y).Perm (b.sharedNeighbors y x) := by
  have h1 : (b.sharedNeighbors x y).Nodup :=
    List.Nodup.filter _ (neighbors_nodup b x)
  have h2 : (b.sharedNeighbors y x).Nodup :=
    List.Nodup.filter _ (neighbors_nodup b y)
  apply List.Subperm.antisymm
  · apply List.subperm_of_subset h1
    intro p hp
    have := mem_sharedNeighbors_iff.mp hp
    exact mem_sharedNeighbors_iff.mpr ⟨this.2, this.1⟩
  · apply List.subperm_of_subset h2
    intro p hp
    have := mem_sharedNeighbors_iff.mp hp
    exact mem_sharedNeighbors_iff.mpr ⟨this.2, this.1⟩

theorem canMoveBetween_symm (b : Board) (x y : AxialCoords) :
    b.canMoveBetween x y = b.canMoveBetween y x := by
  have hperm := sharedNeighbors_perm b x y
  rw [Board.canMoveBetween, Board.canMoveBetween]
  simp only [hperm.length_eq]
  congr 1
  · congr 1
    exact Bool.eq_iff_iff.mpr ⟨fun h => (List.any_eq_true).mpr
      (by rcases (List.any_eq_true).mp h with ⟨p, hp, hq⟩
          exact ⟨p, hperm.mem_iff.mp hp, hq⟩),
      fun h => (List.any_eq_true).mpr
      (by rcases (List.any_eq_true).mp h with ⟨p, hp, hq⟩
          exact ⟨p, hperm.mem_iff.mpr hp, hq⟩)⟩
  · exact Bool.eq_iff_iff.mpr ⟨fun h => (List.any_eq_true).mpr
      (by rcases (List.any_eq_true).mp h with ⟨p, hp, hq⟩
          exact ⟨p, hperm.mem_iff.mp hp, hq⟩),
      fun h => (List.any_eq_true).mpr
      (by rcases (List.any_eq_true).mp h with ⟨p, hp, hq⟩
          exact ⟨p, hperm.mem_iff.mpr hp, hq⟩)⟩

theorem stepE_symm (b : Board) {x y : AxialCoords} {f : Field}
    (hx : b.field x = some f) (hempty : f.isEmptyField = true)
    (h : StepE b x y) : StepE b y x := by
  rcases h with ⟨p, hp, hpy⟩
  obtain ⟨py, pf⟩ := p
  have hc : py = y := hpy
  subst hc
  have hacc := mem_accessibleNeighbors_iff.mp hp
  refine ⟨(x, f), mem_accessibleNeighbors_iff.mpr
    ⟨mem_coordNeighbors_symm hacc.1, hx, hempty, ?_⟩, rfl⟩
  rw [canMoveBetween_symm]
  exact hacc.2.2.2

theorem reach_target_empty (b : Board) {a z : AxialCoords} (h : ReachE b a z) :
    z = a ∨ ∃ f, b.field z = some f ∧ f.isEmptyField = true := by
  induction h with
  | refl => exact Or.inl rfl
  | tail h1 h2 ih =>
    rcases h2 with ⟨p, hp, hpz⟩
    right
    obtain ⟨py, pf⟩ := p
    have hc : py = _ := hpz
    subst hc
    have hacc := mem_accessibleNeighbors_iff.mp hp
    exact ⟨pf, hacc.2.1, hacc.2.2.1⟩

theorem reach_symm_of_empty (b : Board) {a c : AxialCoords} {f : Field}
    (ha : b.field a = some f) (hempty : f.isEmptyField = true)
    (h : ReachE b a c) : ReachE b c a := by
  induction h with
  | refl => exact Relation.ReflTransGen.refl
  | tail h1 h2 ih =>
    rename_i z y
    have hz := reach_target_empty b h1
    have hstep : StepE b y z := by
      rcases hz with rfl | ⟨fz, hfz, hfze⟩
      · exact stepE_symm b ha hempty h2
      · exact stepE_symm b hfz hfze h2
    exact Relation.ReflTransGen.head hstep ih

theorem chain_mem_target {α : Type} {R : α → α → Prop} :
    ∀ {z0 : α} {l : List α}, List.Chain R z0 l → ∀ x ∈ l, ∃ w, R w x := by
  intro z0 l
  induction l generalizing z0 with
  | nil =>
    intro _ x hx
    cases hx
  | cons y t ih =>
    intro hch x hx
    have h := List.chain_cons.mp hch
    rcases List.mem_cons.mp hx with rfl | hxt
    · exact ⟨z0, h.1⟩
    · exact ih h.2 x hxt

theorem chain_to_nodup {α : Type} (R : α → α → Prop) :
    ∀ (n : Nat) (l : List α) (a : α), l.length ≤ n → List.Chain R a l →
      ∃ l2, List.Chain R a l2 ∧ (a :: l2).getLast? = (a :: l).getLast? ∧
        (a :: l2).Nodup ∧ ∀ x ∈ a :: l2, x ∈ a :: l := by
  intro n
  induction n with
  | zero =>
    intro l a hlen _
    have : l = [] := List.length_eq_zero.mp (Nat.le_zero.mp hlen)
    subst this
    exact ⟨[], List.Chain.nil, rfl, by simp, by simp⟩
  | succ m ih =>
    intro l a hlen hch
    by_cases hmem : a ∈ l
    · rcases List.append_of_mem hmem with ⟨pre, post, rfl⟩
      have hch2 : List.Chain R a post := (List.chain_split.mp hch).2
      have hlen2 : post.length ≤ m := by
        rw [List.length_append, List.length_cons] at hlen
        omega
      rcases ih post a hlen2 hch2 with ⟨l2, hc2, hl2, hn2, hs2⟩
      refine ⟨l2, hc2, ?_, hn2, ?_⟩
      · rw [hl2]
        have h1 : a :: (pre ++ a :: post) = (a :: pre) ++ a :: post := by simp
        rw [h1, List.getLast?_append_of_ne_nil (a :: pre) (List.cons_ne_nil a post)]
      · intro x hx
        rcases List.mem_cons.mp (hs2 x hx) with rfl | hxp
        · exact List.mem_cons_self _ _
        · exact List.mem_cons_of_mem _ (List.mem_append_right pre (List.mem_cons_of_mem _ hxp))
    · cases l with
      | nil => exact ⟨[], hch, rfl, by simp, by simp⟩
      | cons y t =>
        have hy := List.chain_cons.mp hch
        have hlen2 : t.length ≤ m := by
          rw [List.length_cons] at hlen
          omega
        rcases ih t y hlen2 hy.2 with ⟨t2, hc2, hl2, hn2, hs2⟩
        refine ⟨y :: t2, List.chain_cons.mpr ⟨hy.1, hc2⟩, ?_, ?_, ?_⟩
        · rw [List.getLast?_cons_cons, List.getLast?_cons_cons]
          exact hl2
        · rw [List.nodup_cons]
          refine ⟨?_, hn2⟩
          intro hax
          have := hs2 a hax
          rcases List.mem_cons.mp this with h1 | h2
          · subst h1
            exact hmem (List.mem_cons_self _ _)
          · exact hmem (List.mem_cons_of_mem _ h2)
        · intro x hx
          rcases List.mem_cons.mp hx with rfl | hxt
          · exact List.mem_cons_self _ _
          · have := hs2 x hxt
            rcases List.mem_cons.mp this with rfl | h2
            · exact List.mem_cons_of_mem _ (List.mem_cons_self _ _)
            · exact List.mem_cons_of_mem _ (List.mem_cons_of_mem _ h2)

theorem bfsSearch_complete (b : Board) (dest : AxialCoords) :
    ∀ queue visited,
      (∃ z0 l, z0 ∈ queue ∧ (b.field z0).isSome = true ∧ List.Chain (StepE b) z0 l ∧
        (z0 :: l).getLast? = some dest ∧ (z0 :: l).Nodup ∧ ∀ x ∈ z0 :: l, ¬ x ∈ visited) →
      b.bfsSearch dest queue visited = true := by
  intro queue visited
  induction queue, visited using Board.bfsSearch.induct b dest with
  | case1 v =>
    rintro ⟨z0, l, hz0, -⟩
    cases hz0
  | case2 rest v f hfc =>
    intro _
    rw [bfsSearch_cons_some b dest dest rest v f hfc, if_pos rfl]
  | case3 c rest v f hfc hne ih =>
    rintro ⟨z0, l, hz0q, hz0f, hch, hlast, hnd, hfresh⟩
    rw [bfsSearch_cons_some b dest c rest v f hfc, if_neg hne]
    apply ih
    by_cases hcpath : c ∈ z0 :: l
    · rcases List.append_of_mem hcpath with ⟨pre, post, heq⟩
      have hchc : List.Chain (StepE b) c post := by
        cases pre with
        | nil =>
          simp only [List.nil_append, List.cons.injEq] at heq
          obtain ⟨h1, h2⟩ := heq
          subst h1
          subst h2
          exact hch
        | cons p0 pre2 =>
          simp only [List.cons_append, List.cons.injEq] at heq
          obtain ⟨h1, h2⟩ := heq
          subst h1
          rw [h2] at hch
          exact (List.chain_split.mp hch).2
      have hlastc : (c :: post).getLast? = some dest := by
        rw [← hlast, heq, List.getLast?_append_of_ne_nil pre (List.cons_ne_nil c post)]
      have hndc : (c :: post).Nodup := by
        have hsub : (c :: post).Sublist (z0 :: l) := by
          rw [heq]
          exact List.sublist_append_right pre (c :: post)
        exact hsub.nodup hnd
      have hsubmem : ∀ x ∈ c :: post, x ∈ z0 :: l := by
        intro x hx
        rw [heq]
        exact List.mem_append_right pre hx
      cases post with
      | nil =>
        rw [List.getLast?_singleton] at hlastc
        exact absurd (Option.some.inj hlastc) hne
      | cons y post2 =>
        have hy := List.chain_cons.mp hchc
        have hynotc : ¬ y ∈ (c :: v) := by
          intro hyc
          rcases List.mem_cons.mp hyc with rfl | hyv
          · have := List.nodup_cons.mp hndc
            exact this.1 (List.mem_cons_self _ _)
          · exact hfresh y (hsubmem y (List.mem_cons_of_mem _ (List.mem_cons_self _ _))) hyv
        refine ⟨y, post2, ?_, ?_, hy.2, ?_, ?_, ?_⟩
        · apply List.mem_append_right
          rcases hy.1 with ⟨p, hp, hpy⟩
          apply List.mem_filterMap.mpr
          refine ⟨p, hp, ?_⟩
          have hcont : ¬ ((c :: v).contains p.1 = true) := by
            rw [hpy]
            simpa using hynotc
          rw [dif_neg hcont, hpy]
        · rcases hy.1 with ⟨p, hp, hpy⟩
          have hacc := mem_accessibleNeighbors_iff.mp hp
          rw [← hpy, hacc.2.1]
          rfl
        · rw [List.getLast?_cons_cons] at hlastc
          exact hlastc
        · exact ((List.sublist_cons_self c (y :: post2)).nodup hndc)
        · intro x hx
          intro hxc
          rcases List.mem_cons.mp hxc with rfl | hxv
          · have := List.nodup_cons.mp hndc
            exact this.1 hx
          · exact hfresh x (hsubmem x (List.mem_cons_of_mem _ hx)) hxv
    · refine ⟨z0, l, ?_, hz0f, hch, hlast, hnd, ?_⟩
      · apply List.mem_append_left
        rcases List.mem_cons.mp hz0q with rfl | hz0r
        · exact absurd (List.mem_cons_self _ _) hcpath
        · exact hz0r
      · intro x hx hxc
        rcases List.mem_cons.mp hxc with rfl | hxv
        · exact hcpath hx
        · exact hfresh x hx hxv
  | case4 c rest v hfc ih =>
    rintro ⟨z0, l, hz0q, hz0f, hch, hlast, hnd, hfresh⟩
    rw [bfsSearch_cons_none b dest c rest v hfc]
    apply ih
    have hcpath : ¬ c ∈ z0 :: l := by
      intro hc
      rcases List.mem_cons.mp hc with rfl | hctail
      · rw [hfc] at hz0f
        cases hz0f
      · rcases chain_mem_target hch c hctail with ⟨w, hw⟩
        rcases hw with ⟨p, hp, hpc⟩
        have hacc := mem_accessibleNeighbors_iff.mp hp
        have hsome := hacc.2.1
        rw [hpc, hfc] at hsome
        cases hsome
    refine ⟨z0, l, ?_, hz0f, hch, hlast, hnd, ?_⟩
    · rcases List.mem_cons.mp hz0q with rfl | hz0r
      · exact absurd (List.mem_cons_self _ _) hcpath
      · exact hz0r
    · intro x hx hxc
      rcases List.mem_cons.mp hxc with rfl | hxv
      · exact hcpath hx
      · exact hfresh x hx hxv

theorem connected_true_iff_reach (b : Board) (a dest : AxialCoords) (fa fd : Field)
    (ha : b.field a = some fa) (hd : b.field dest = some fd) :
    b.connectedByBoundaryPath a dest = true ↔ ReachE b a dest := by
  rw [Board.connectedByBoundaryPath]
  constructor
  · apply bfsSearch_sound b dest a [a] []
    intro q hq
    rcases List.mem_singleton.mp hq with rfl
    exact Relation.ReflTransGen.refl
  · intro hreach
    rcases List.exists_chain_of_relationReflTransGen hreach with ⟨l, hch, hlast⟩
    have hlast2 : (a :: l).getLast? = some dest := by
      rw [List.getLast?_eq_getLast (a :: l) (List.cons_ne_nil a l), hlast]
    rcases chain_to_nodup (StepE b) l.length l a le_rfl hch with ⟨l2, hc2, hl2, hn2, -⟩
    apply bfsSearch_complete b dest [a] []
    refine ⟨a, l2, List.mem_singleton.mpr rfl, by rw [ha]; rfl, hc2, ?_, hn2, by simp⟩
    rw [hl2, hlast2]

/-- Counterexample for C8: on a concrete four-field board, the breadth-first
search from the occupied field (0,0) reaches the empty field (1,0), but the
search started at (1,0) cannot enter the occupied field (0,0), because only
empty accessible neighbors are ever enqueued; the relation is therefore not
symmetric. -/
theorem connectedByBoundaryPath_asymmetric :
    boardC8.connectedByBoundaryPath { x := 0, y := 0 } { x := 1, y := 0 } = true ∧
    boardC8.connectedByBoundaryPath { x := 1, y := 0 } { x := 0, y := 0 } = false := by
  constructor
  · rw [Board.connectedByBoundaryPath,
      bfsSearch_cons_some boardC8 { x := 1, y := 0 } { x := 0, y := 0 } [] []
        (pieceF redBee) (by decide), if_neg (by decide)]
    have hq : ([] ++ (boardC8.accessibleNeighbors { x := 0, y := 0 }).filterMap
        (fun p => if (({ x := 0, y := 0 } :: ([] : List AxialCoords)).contains p.1)
          then none else some p.1))
        = [{ x := 1, y := 0 }] := by decide
    rw [hq, bfsSearch_cons_some boardC8 { x := 1, y := 0 } { x := 1, y := 0 } []
      [{ x := 0, y := 0 }] emptyF (by decide), if_pos rfl]
  · rw [Board.connectedByBoundaryPath,
      bfsSearch_cons_some boardC8 { x := 0, y := 0 } { x := 1, y := 0 } [] []
        emptyF (by decide), if_neg (by decide)]
    have hq : ([] ++ (boardC8.accessibleNeighbors { x := 1, y := 0 }).filterMap
        (fun p => if (({ x := 1, y := 0 } :: ([] : List AxialCoords)).contains p.1)
          then none else some p.1))
        = [{ x := 0, y := 1 }] := by decide
    rw [hq, bfsSearch_cons_some boardC8 { x := 0, y := 0 } { x := 0, y := 1 } []
      [{ x := 1, y := 0 }] emptyF (by decide), if_neg (by decide)]
    have hq2 : ([] ++ (boardC8.accessibleNeighbors { x := 0, y := 1 }).filterMap
        (fun p => if (({ x := 0, y := 1 } :: [{ x := 1, y := 0 }]).contains p.1)
          then none else some p.1))
        = [] := by decide
    rw [hq2, bfsSearch_nil]

/-- Amended claim C8: connected_by_boundary_path(a,b) equals
connected_by_boundary_path(b,a) whenever a and b agree on being occupied
fields of the board, i.e. unless exactly one of them is an occupied board
field.  This covers a = b, two occupied fields, two empty fields, and every
case involving a coordinate outside the board.  The original unrestricted
symmetry fails (see the counterexample): the search traverses only empty
fields after its start, so a search from an occupied start can reach an
empty destination while the reversed search cannot enter the occupied start.
The two-empty-fields case holds because the search is sound and complete for
reachability along accessible steps, and that reachability is symmetric on
empty fields. -/
theorem connectedByBoundaryPath_symm (b : Board) (a c : AxialCoords)
    (h : ((b.field a).map Field.isOccupied).getD false
        = ((b.field c).map Field.isOccupied).getD false) :
    b.connectedByBoundaryPath a c = b.connectedByBoundaryPath c a := by
  by_cases hac : a = c
  · rw [hac]
  · cases hfa : b.field a with
    | none =>
      rw [hfa] at h
      rw [Board.connectedByBoundaryPath, Board.connectedByBoundaryPath,
        bfsSearch_cons_none b c a [] [] hfa, bfsSearch_nil,
        bfsSearch_false_of_occupied_dest b a (by rw [Board.isOccupied, hfa]; rfl) [c] []
          (by simpa using hac)]
    | some fa =>
      cases hfc2 : b.field c with
      | none =>
        rw [hfa, hfc2] at h
        rw [Board.connectedByBoundaryPath, Board.connectedByBoundaryPath,
          bfsSearch_cons_none b a c [] [] hfc2, bfsSearch_nil,
          bfsSearch_false_of_occupied_dest b c (by rw [Board.isOccupied, hfc2]; rfl) [a] []
            (by simpa using Ne.symm hac)]
      | some fc =>
        rw [hfa, hfc2] at h
        simp only [Option.map_some', Option.getD_some] at h
        by_cases hocc : fa.isOccupied = true
        · have hoccc : fc.isOccupied = true := by rw [← h]; exact hocc
          rw [Board.connectedByBoundaryPath, Board.connectedByBoundaryPath,
            bfsSearch_false_of_occupied_dest b c
              (by rw [Board.isOccupied, hfc2]; simpa using hoccc) [a] []
              (by simpa using Ne.symm hac),
            bfsSearch_false_of_occupied_dest b a
              (by rw [Board.isOccupied, hfa]; simpa using hocc) [c] []
              (by simpa using hac)]
        · have hea : fa.isEmptyField = true := by
            rw [Field.isEmptyField]
            simp only [Bool.not_eq_true] at hocc
            rw [hocc]
            rfl
          have hec : fc.isEmptyField = true := by
            rw [Field.isEmptyField, ← h]
            simp only [Bool.not_eq_true] at hocc
            rw [hocc]
            rfl
          have h1 := connected_true_iff_reach b a c fa fc hfa hfc2
          have h2 := connected_true_iff_reach b c a fc fa hfc2 hfa
          cases hb1 : b.connectedByBoundaryPath a c with
          | true =>
            have hr := h1.mp hb1
            have := h2.mpr (reach_symm_of_empty b hfa hea hr)
            rw [this]
          | false =>
            cases hb2 : b.connectedByBoundaryPath c a with
            | true =>
              have hr := h2.mp hb2
              have := h1.mpr (reach_symm_of_empty b hfc2 hec hr)
              rw [hb1] at this
              cases this
            | false => rfl

theorem connectedByBoundaryPath_symm_witness :
    (((boardC8.field { x := 1, y := 0 }).map Field.isOccupied).getD false
      = ((boardC8.field { x := 0, y := 1 }).map Field.isOccupied).getD false) ∧
    boardC8.connectedByBoundaryPath { x := 1, y := 0 } { x := 0, y := 1 }
      = boardC8.connectedByBoundaryPath { x := 0, y := 1 } { x := 1, y := 0 } :=
  ⟨rfl, connectedByBoundaryPath_symm boardC8 { x := 1, y := 0 } { x := 0, y := 1 } rfl⟩

/-- Theorem for C1: the claim that every move returned by possible_moves is
accepted by validate_move fails on a concrete mid-game state: the generated
SetMove of a red Ant to (0,1), an empty field touching only red, is rejected
because validate_set_move (game.rs line 562) repeats the own-color adjacency
test of line 560 where the opponent should be tested, so every set move past
the first two placements is rejected. -/
theorem possibleMoves_contains_rejected_move :
    mvCEx ∈ gsCEx.possibleMoves .red ∧
    gsCEx.validateMove .red mvCEx
      = .error "Piece must not be placed next to an opponent piece" := by
  exact ⟨by decide, rfl⟩

/-- Theorem for C2: on a concrete state past the first two placements where
every earlier check passes and the destination (0,1) is adjacent to a
red-owned field and to no blue-owned field, validate_set_move still returns
an error instead of Ok, again because of the repeated own-color test at
game.rs line 562. -/
theorem validateSetMove_rejects_contained_destination :
    gsCEx.board.containsCoords { x := 0, y := 1 } = true ∧
    ((gsCEx.board.field { x := 0, y := 1 }).map Field.isObstructed).getD true = false ∧
    gsCEx.board.hasPieces = true ∧
    ((gsCEx.board.fieldsOwnedBy .red).length == 0) = false ∧
    (gsCEx.round == 3) = false ∧
    (gsCEx.undeployedPieces .red).contains redAnt = true ∧
    (gsCEx.board.neighbors { x := 0, y := 1 }).any
      (fun p => p.2.isOwnedBy .red) = true ∧
    (gsCEx.board.neighbors { x := 0, y := 1 }).any
      (fun p => p.2.isOwnedBy (PlayerColor.red.opponent)) = false ∧
    gsCEx.validateSetMove .red redAnt { x := 0, y := 1 }
      = .error "Piece must not be placed next to an opponent piece" := by
  exact ⟨rfl, rfl, rfl, rfl, rfl, rfl, rfl, rfl, rfl⟩

/-- Theorem for C4: validate_drag_move tests the piece type at the
destination instead of the dragged piece (game.rs line 583).  Dragging the
red Bee, a non-Beetle, onto the occupied field (1,0) whose top piece is a
blue Ant is accepted, contradicting the claim that only Beetles may move
onto occupied fields. -/
theorem validateDragMove_accepts_nonbeetle_onto_occupied :
    ((gsC4.board.field { x := 1, y := 0 }).map Field.hasPieces).getD false = true ∧
    ((gsC4.board.field { x := 0, y := 0 }).bind Field.piece) = some redBee ∧
    redBee.pieceType ≠ PieceType.beetle ∧
    gsC4.validateDragMove .red { x := 0, y := 0 } { x := 1, y := 0 } = .ok () := by
  exact ⟨rfl, rfl, by decide, rfl⟩

/-- Theorem for C9: Board.is_occupied treats coordinates that are not a key
of the field map as occupied, returning true. -/
theorem isOccupied_true_off_board (b : Board) (c : AxialCoords)
    (h : b.field c = none) : b.isOccupied c = true := by
  rw [Board.isOccupied, h]
  rfl

theorem isOccupied_true_off_board_witness :
    boardCEx.field { x := 5, y := 5 } = none ∧
    boardCEx.isOccupied { x := 5, y := 5 } = true :=
  ⟨rfl, isOccupied_true_off_board boardCEx { x := 5, y := 5 } rfl⟩

theorem popAt_field (b : Board) (start c : AxialCoords) :
    (b.popAt start).field c
      = (b.fields.find? (fun p => p.1 == c)).map
          (fun p => if p.1 = start
            then { p.2 with pieceStack := p.2.pieceStack.dropLast } else p.2) := by
  simp only [Board.popAt, Board.field]
  rw [List.find?_map, Option.map_map]
  have hpred : ((fun p : AxialCoords × Field => p.1 == c) ∘
      (fun p : AxialCoords × Field => if p.1 = start
        then (p.1, { p.2 with pieceStack := p.2.pieceStack.dropLast }) else p))
      = (fun p : AxialCoords × Field => p.1 == c) := by
    funext p
    by_cases hp : p.1 = start <;> simp [hp]
  rw [hpred]
  cases hfind : b.fields.find? (fun p => p.1 == c) with
  | none => rfl
  | some q =>
    by_cases hq : q.1 = start <;> simp [hq, Function.comp]

/-- Theorem for C10: the disposable board used by the connectivity check of
validate_drag_move, Board.popAt of the start coordinates, pops exactly the
top piece of the start stack (Vec::pop drops the last element, leaving all
pieces below unchanged) and leaves every other field untouched; the
authoritative board itself is never modified, since the embedded validator
is a pure function of the state. -/
theorem popAt_frame (b : Board) (start : AxialCoords) :
    ((b.popAt start).field start
      = (b.field start).map (fun f => { f with pieceStack := f.pieceStack.dropLast }))
    ∧ ∀ c, c ≠ start → (b.popAt start).field c = b.field c := by
  constructor
  · rw [popAt_field, Board.field, Option.map_map]
    cases hfind : b.fields.find? (fun p => p.1 == start) with
    | none => rfl
    | some q =>
      have hq : q.1 = start := by
        have := List.find?_some hfind
        simpa using this
      simp [hq, Function.comp]
  · intro c hcs
    rw [popAt_field, Board.field]
    cases hfind : b.fields.find? (fun p => p.1 == c) with
    | none => rfl
    | some q =>
      have hq : q.1 = c := by
        have := List.find?_some hfind
        simpa using this
      have hqs : ¬ q.1 = start := by rw [hq]; exact hcs
      simp [hqs]

theorem popAt_frame_witness :
    (({ x := 1, y := 0 } : AxialCoords) ≠ { x := 0, y := 0 }) ∧
    (boardC4.popAt { x := 0, y := 0 }).field { x := 1, y := 0 }
      = boardC4.field { x := 1, y := 0 } ∧
    (boardC4.popAt { x := 0, y := 0 }).field { x := 0, y := 0 }
      = (boardC4.field { x := 0, y := 0 }).map
          (fun f => { f with pieceStack := f.pieceStack.dropLast }) :=
  ⟨by decide,
    (popAt_frame boardC4 { x := 0, y := 0 }).2 { x := 1, y := 0 } (by decide),
    (popAt_frame boardC4 { x := 0, y := 0 }).1⟩

end Socha2020
